import Mathlib

/-!
Verification of the `lift` documentation-aggregation CLI.

The JavaScript sources are embedded shallowly: strings are `String`
(lists of characters), the front-matter regex replacement is implemented
as an explicit backtracking matcher, JavaScript arrays are `List`s, and
`Array.prototype.sort` (a stable comparison sort) is modelled by
`List.insertionSort`.  File-system effects are abstracted: reading a file
is a function `String → Option String`, a directory tree is an inductive
value, and writing the two output files is represented by returning the
rendered strings.
-/

/-- JavaScript `String.prototype.toLowerCase`, restricted to the
per-character lowering relevant for the ASCII paths and patterns used by
the program. -/
def jsToLower (s : String) : String :=
  ⟨s.data.map Char.toLower⟩

/-- JavaScript regular-expression class `\s` (whitespace): ASCII
whitespace plus the Unicode space characters listed by the ECMAScript
standard. -/
def isWs (c : Char) : Bool :=
  c = ' ' || c = '\t' || c = '\n' || c = '\u000b' || c = '\u000c' || c = '\r' ||
  c = '\u00a0' || c = '\u1680' || ('\u2000' ≤ c && c ≤ '\u200a') ||
  c = '\u2028' || c = '\u2029' || c = '\u202f' || c = '\u205f' || c = '\u3000' ||
  c = '\ufeff'

/-- Boolean list-prefix test (used to model JavaScript's
`String.prototype.includes` / `startsWith`). -/
def isPrefixOfB : List Char → List Char → Bool
  | [], _ => true
  | _ :: _, [] => false
  | a :: as, b :: bs => a = b && isPrefixOfB as bs

/-- Scan for an occurrence of `pat` anywhere in `l`. -/
def listIncludes (pat : List Char) : List Char → Bool
  | [] => pat.isEmpty
  | c :: rest => isPrefixOfB pat (c :: rest) || listIncludes pat rest

/-- JavaScript `String.prototype.includes`. -/
def strIncludes (s pat : String) : Bool :=
  listIncludes pat.data s.data

/-- JavaScript `String.prototype.startsWith`. -/
def strStartsWith (s pre : String) : Bool :=
  isPrefixOfB pre.data s.data

/-- JavaScript `String.prototype.endsWith`. -/
def strEndsWith (s suf : String) : Bool :=
  isPrefixOfB suf.data.reverse s.data.reverse

/-- JavaScript `String.prototype.trim` (strips `\s` from both ends). -/
def jsTrim (s : String) : String :=
  ⟨((s.data.dropWhile isWs).reverse.dropWhile isWs).reverse⟩

/-- Node's posix `path.basename`: the component after the last `/`
(trailing slashes ignored). -/
def jsBasename (p : String) : String :=
  ⟨((p.data.reverse.dropWhile (· = '/')).takeWhile (· ≠ '/')).reverse⟩

/-!
## Front-matter stripping

`stripFrontmatter(content)` in `MarkdownProcessor.js` (and identically in
`LiftProcessor.js`) is
`content.replace(/^---\s*\n[\s\S]*?\n---\s*\n?/m, '')`:
a multiline regex (so `^` anchors at every line start), non-global (so only
the first match is replaced).  The matcher below reproduces the
backtracking semantics: after the literal `---`, the greedy `\s*`
followed by `\n` tries the longest whitespace prefix first and backtracks;
the lazy `[\s\S]*?` ends at the first `\n---`; the trailing `\s*\n?`
greedily consumes the whitespace run after the closing delimiter.
-/

/-- Length of the maximal `\s` prefix. -/
def wsPrefixLen : List Char → Nat
  | [] => 0
  | c :: rest => if isWs c then wsPrefixLen rest + 1 else 0

/-- Lazy search for the closing `\n---` of the front-matter block; on
success returns the input with the matched text removed, i.e. everything
after the closing delimiter and its trailing whitespace run
(`---\s*\n?`, with `\s*` greedy, consumes that whole run). -/
def findClose : List Char → Option (List Char)
  | '\n' :: '-' :: '-' :: '-' :: tail => some (tail.dropWhile isWs)
  | _ :: rest => findClose rest
  | [] => none

/-- A single backtracking attempt for the opening `\s*\n`: the `\n` of the
opening delimiter at index `k` of the whitespace prefix. -/
def tryAt (l : List Char) (k : Nat) : Option (List Char) :=
  match l.drop k with
  | '\n' :: rest => findClose rest
  | _ => none

/-- Backtracking for the opening `\s*\n`: try splits of the whitespace
prefix, largest `k` first (greedy `\s*`). -/
def tryOpenK (l : List Char) : Nat → Option (List Char)
  | 0 => tryAt l 0
  | k + 1 =>
    match tryAt l (k + 1) with
    | some r => some r
    | none => tryOpenK l k

/-- Try to match `^---\s*\n[\s\S]*?\n---\s*\n?` at the head of the list;
on success return the remainder of the text (the match removed). -/
def matchFM : List Char → Option (List Char)
  | '-' :: '-' :: '-' :: rest => tryOpenK rest (wsPrefixLen rest)
  | _ => none

/-- One-pass scan of the text, trying the pattern at every line start
(`^` with the `m` flag); replaces the first match with the empty string.
The boolean records whether the current position is a line start. -/
def replaceFMAux : Bool → List Char → List Char
  | _, [] => []
  | true, c :: rest =>
    (match matchFM (c :: rest) with
     | some rem => rem
     | none => c :: replaceFMAux (c = '\n') rest)
  | false, c :: rest => c :: replaceFMAux (c = '\n') rest

/-- Does the regex match at some line start of the text? -/
def hasFMAux : Bool → List Char → Bool
  | _, [] => false
  | true, c :: rest => (matchFM (c :: rest)).isSome || hasFMAux (c = '\n') rest
  | false, c :: rest => hasFMAux (c = '\n') rest

/-- `MarkdownProcessor.stripFrontmatter` / `LiftProcessor.stripFrontmatter`:
`content.replace(/^---\s*\n[\s\S]*?\n---\s*\n?/m, '')`. -/
def stripFrontmatter (content : String) : String :=
  ⟨replaceFMAux true content.data⟩

/-- Whether the front-matter regex matches anywhere in the text (at a
line start). -/
def hasFMMatch (content : String) : Bool :=
  hasFMAux true content.data

/-!
## Document classification (`MarkdownProcessor.js` / `LiftProcessor.js`)
-/

/-- The `importantPatterns` array of `MarkdownProcessor.isImportantDocument`. -/
def markdownImportantPatterns : List String :=
  ["doc", "docs", "catalog", "catalogs", "tutorial", "tutorials",
   "intro", "introduction", "getting-started", "get-started",
   "quickstart", "quick-start", "start"]

/-- The `importantPatterns` array of `LiftProcessor.isImportantDocument`. -/
def liftImportantPatterns : List String :=
  ["doc", "docs", "guide", "guides", "tutorial", "tutorials",
   "intro", "introduction", "getting-started", "get-started",
   "quickstart", "quick-start", "start"]

/-- `MarkdownProcessor.isIndexDocument`. -/
def MarkdownProcessor.isIndexDocument (path : String) : Bool :=
  let lower := jsToLower path
  let filename := jsToLower (jsBasename path)
  filename == "index.md" || filename == "index.mdx" || filename == "index.html" ||
  filename == "readme.md" || filename == "readme.mdx" || filename == "readme.html" ||
  filename == "home.md" || filename == "home.mdx" || filename == "home.html" ||
  strIncludes lower "/index." || strIncludes lower "/readme." || strIncludes lower "/home."

/-- `MarkdownProcessor.isImportantDocument`. -/
def MarkdownProcessor.isImportantDocument (path : String) : Bool :=
  let lower := jsToLower path
  markdownImportantPatterns.any (fun pat => strIncludes lower pat)

/-- `MarkdownProcessor.getIndexPriority`. -/
def MarkdownProcessor.getIndexPriority (path : String) : Nat :=
  let filename := jsToLower (jsBasename path)
  if filename == "index.md" || filename == "index.mdx" || filename == "index.html" then 1
  else if filename == "readme.md" || filename == "readme.mdx" || filename == "readme.html" then 2
  else if filename == "home.md" || filename == "home.mdx" || filename == "home.html" then 3
  else 4

/-- `LiftProcessor.isIndexDocument` (no `.html` variants). -/
def LiftProcessor.isIndexDocument (path : String) : Bool :=
  let lower := jsToLower path
  let filename := jsToLower (jsBasename path)
  filename == "index.md" || filename == "index.mdx" ||
  filename == "readme.md" || filename == "readme.mdx" ||
  filename == "home.md" || filename == "home.mdx" ||
  strIncludes lower "/index." || strIncludes lower "/readme." || strIncludes lower "/home."

/-- `LiftProcessor.isImportantDocument`. -/
def LiftProcessor.isImportantDocument (path : String) : Bool :=
  let lower := jsToLower path
  liftImportantPatterns.any (fun pat => strIncludes lower pat)

/-- `LiftProcessor.getIndexPriority` (no `.html` variants). -/
def LiftProcessor.getIndexPriority (path : String) : Nat :=
  let filename := jsToLower (jsBasename path)
  if filename == "index.md" || filename == "index.mdx" then 1
  else if filename == "readme.md" || filename == "readme.mdx" then 2
  else if filename == "home.md" || filename == "home.mdx" then 3
  else 4

/-- Reference rendering of the priority table as the specification words it:
basename `index`/`readme`/`home` with one of the given extensions gives
priority 1/2/3, everything else 4. -/
def priorityRef (exts : List String) (p : String) : Nat :=
  let fn := jsToLower (jsBasename p)
  if exts.any (fun e => fn == "index" ++ e) then 1
  else if exts.any (fun e => fn == "readme" ++ e) then 2
  else if exts.any (fun e => fn == "home" ++ e) then 3
  else 4

/-!
## Documents and ordering
-/

/-- A processed document (the `fullPath` field is dropped: it is the raw
input path and plays no role in the claims). -/
structure Document where
  relativePath : String
  content : String
deriving DecidableEq, Repr

/-- The result of `orderDocuments`. -/
structure OrderedSet where
  index : List Document
  important : List Document
  other : List Document
  all : List Document
deriving DecidableEq, Repr

/-- The classification loop of `orderDocuments`: each document goes to the
first bucket whose predicate accepts it (`if / else if / else`),
preserving input order within each bucket. -/
def bucketize (isIdx isImp : String → Bool) :
    List Document → List Document × List Document × List Document
  | [] => ([], [], [])
  | d :: ds =>
    let r := bucketize isIdx isImp ds
    if isIdx d.relativePath then (d :: r.1, r.2.1, r.2.2)
    else if isImp d.relativePath then (r.1, d :: r.2.1, r.2.2)
    else (r.1, r.2.1, d :: r.2.2)

/-- `orderDocuments`, parameterized by the classifier pair, the index
priority function and the (locale-dependent) path comparison used for the
important/other buckets.  `Array.prototype.sort` is modelled by the stable
`List.insertionSort`. -/
def orderDocuments (isIdx isImp : String → Bool) (prio : String → Nat)
    (le : String → String → Bool) (documents : List Document) : OrderedSet :=
  let b := bucketize isIdx isImp documents
  let indexDocs :=
    List.insertionSort (fun a b => prio a.relativePath ≤ prio b.relativePath) b.1
  let importantDocs :=
    List.insertionSort (fun a b => le a.relativePath b.relativePath = true) b.2.1
  let otherDocs :=
    List.insertionSort (fun a b => le a.relativePath b.relativePath = true) b.2.2
  ⟨indexDocs, importantDocs, otherDocs, indexDocs ++ importantDocs ++ otherDocs⟩

/-!
## Output generation (`OutputGenerator.js` / `LiftProcessor.js`)
-/

/-- One `- [relativePath](relativePath)` line of the llms.txt link list. -/
def linkLine (p : String) : String :=
  "- [" ++ p ++ "](" ++ p ++ ")\n"

def linksOf : List Document → String
  | [] => ""
  | d :: ds => linkLine d.relativePath ++ linksOf ds

/-- `generateLlmsIndex(projectName, orderedDocs)`. -/
def generateLlmsIndex (projectName : String) (o : OrderedSet) : String :=
  let header := "# " ++ projectName ++ "\n\n" ++ "> Documentation for " ++ projectName ++ "\n\n"
  let core := o.index ++ o.important
  let coreSec :=
    if core.length > 0 then "## Core Documentation\n" ++ linksOf core ++ "\n" else ""
  let optSec :=
    if o.other.length > 0 then "## Optional\n" ++ linksOf o.other ++ "\n" else ""
  header ++ coreSec ++ optSec

def fullEntry (d : Document) : String :=
  "## " ++ d.relativePath ++ "\n\n" ++ d.content ++ "\n\n" ++ "---\n\n"

def fullBody : List Document → String
  | [] => ""
  | d :: ds => fullEntry d ++ fullBody ds

/-- `generateLlmsFull(projectName, documents)`. -/
def generateLlmsFull (projectName : String) (documents : List Document) : String :=
  "# " ++ projectName ++ "\n\n" ++ "> Documentation for " ++ projectName ++ "\n\n" ++
  fullBody documents

/-!
## Link-list extraction (specification side, §8 round-trip)

Re-parsing of `llms.txt`: split into lines, keep exactly the lines of the
shape `- [p](p)` and recover `p`.
-/

/-- Split a character list at every `'\n'` (the JavaScript
`text.split('\n')` convention: `n` newlines give `n + 1` fields). -/
def splitLines : List Char → List (List Char)
  | [] => [[]]
  | c :: rest =>
    match splitLines rest with
    | [] => [[c]]
    | l :: ls => if c = '\n' then [] :: l :: ls else (c :: l) :: ls

/-- Recognize a link line `- [p](p)` and return `p`; the two occurrences
of `p` must agree (their common length is determined by the line length,
so the decomposition is unique). -/
def parseLink : List Char → Option String
  | '-' :: ' ' :: '[' :: rest =>
    match rest.reverse with
    | ')' :: revMid =>
      let mid := revMid.reverse
      let p := mid.take ((mid.length - 2) / 2)
      if mid = p ++ ']' :: '(' :: p then some ⟨p⟩ else none
    | _ => none
  | _ => none

/-- All link-line paths of a rendered document, in textual order. -/
def extractLinks (s : String) : List String :=
  (splitLines s.data).filterMap parseLink

/-- No newline character occurs in the string. -/
def noNewline (s : String) : Bool :=
  !s.data.contains '\n'

/-!
## File processing and the `process` pipeline (`LiftProcessor.js`)

`readFile` is abstracted as `readF : String → Option String` (`none` = the
read threw) and `path.relative(inputDir, ·)` plus backslash normalization
as `rel : String → String`.  Writing `llms.txt` / `llms-full.txt` is
modelled by returning `some (llmsContent, llmsFullContent)`; `none` means
the early `files.length === 0` return, where nothing is written.
-/

/-- `LiftProcessor.processFiles` / `MarkdownProcessor.processFiles`:
read each file, strip front matter, trim; unreadable files are skipped
with a warning. -/
def LiftProcessor.processFiles (rel : String → String)
    (readF : String → Option String) : List String → List Document
  | [] => []
  | fp :: rest =>
    match readF fp with
    | some content =>
      { relativePath := rel fp, content := jsTrim (stripFrontmatter content) } ::
        LiftProcessor.processFiles rel readF rest
    | none => LiftProcessor.processFiles rel readF rest

/-- `LiftProcessor.process` after the successful directory scan: the
early return on an empty file list, otherwise read, order, and render both
outputs. -/
def LiftProcessor.process (rel : String → String) (le : String → String → Bool)
    (projectName : String) (files : List String)
    (readF : String → Option String) : Option (String × String) :=
  if files.length == 0 then none
  else
    let documents := LiftProcessor.processFiles rel readF files
    let ordered := orderDocuments LiftProcessor.isIndexDocument
      LiftProcessor.isImportantDocument LiftProcessor.getIndexPriority le documents
    some (generateLlmsIndex projectName ordered, generateLlmsFull projectName ordered.all)

/-!
## Directory scanning (`DirectoryScanner.js` / `LiftProcessor.js`)

The file system is a tree; a directory carries a flag saying whether
`readdir` succeeds on it.  `scanModel` is fuel-indexed so that it is
structurally recursive (any fuel larger than the tree depth is enough; on
exhaustion it reports an error, which never happens in the witnesses).
-/

inductive FSTree where
  | file : String → FSTree
  | dir : String → Bool → List FSTree → FSTree
deriving Repr

/-- The default `excludePatterns` array. -/
def excludePatterns : List String :=
  ["node_modules", ".git", "dist", "build", "out", "coverage",
   ".next", ".nuxt", ".output", ".vercel", ".netlify"]

/-- `shouldExclude(name, relativePath)`. -/
def shouldExclude (name relativePath : String) : Bool :=
  excludePatterns.any (fun pat =>
    strIncludes (jsToLower name) (jsToLower pat) ||
    strIncludes (jsToLower relativePath) (jsToLower pat))

/-- `path.relative(base, join(dir, name))` for a child of the directory at
relative path `rel`. -/
def childRel (rel name : String) : String :=
  if rel == "" then name else rel ++ "/" ++ name

/-- `scanDirectory(dir)`: recursive scan collecting full paths of document
files; an excluded directory is pruned; a directory whose `readdir` throws
makes the whole call throw `Failed to scan directory <dir>: <message>`,
and every enclosing level re-wraps the message the same way. -/
def scanModel (isMd : String → Bool) (osErr : String) :
    Nat → FSTree → String → String → Except String (List String)
  | 0, _, _, _ => Except.error "scan model out of fuel"
  | _ + 1, FSTree.file _, _, _ => Except.ok []
  | _ + 1, FSTree.dir _ false _, full, _ =>
    Except.error ("Failed to scan directory " ++ full ++ ": " ++ osErr)
  | fuel + 1, FSTree.dir _ true children, full, rel =>
    match children.foldl (fun acc e =>
      match acc with
      | Except.error m => Except.error m
      | Except.ok fs =>
        match e with
        | FSTree.file name =>
          if isMd name && !shouldExclude name (childRel rel name) then
            Except.ok (fs ++ [full ++ "/" ++ name])
          else Except.ok fs
        | FSTree.dir name readable sub =>
          if shouldExclude name (childRel rel name) then Except.ok fs
          else
            match scanModel isMd osErr fuel (FSTree.dir name readable sub)
                (full ++ "/" ++ name) (childRel rel name) with
            | Except.ok subFiles => Except.ok (fs ++ subFiles)
            | Except.error m => Except.error m) (Except.ok []) with
    | Except.ok fs => Except.ok fs
    | Except.error m => Except.error ("Failed to scan directory " ++ full ++ ": " ++ m)

/-- `DirectoryScanner.defaultIsMarkdownFile` / the default
`isMarkdownFileFn`. -/
def DirectoryScanner.defaultIsMarkdownFile (filename : String) : Bool :=
  let lower := jsToLower filename
  strEndsWith lower ".md" || strEndsWith lower ".mdx"

/-- `LiftProcessor.isMarkdownFile` (textually identical to the scanner's
default). -/
def LiftProcessor.isMarkdownFile (filename : String) : Bool :=
  let lower := jsToLower filename
  strEndsWith lower ".md" || strEndsWith lower ".mdx"

/-!
## CLI argument parsing (`cli.js` for lift, guide-cli for guide)

Both `parseArgs` functions are the same loop over `process.argv.slice(2)`
with different option tables; the loop is factored through `classify`.
`ParseResult.exit c` models `process.exit(c)` (help/version print and
exit 0, argument errors exit 1).
-/

inductive ArgKind (σ : Type) where
  | exitCode : Nat → ArgKind σ
  | valueOpt : (String → σ → σ) → ArgKind σ
  | flagOpt : (σ → σ) → ArgKind σ
  | other : ArgKind σ

inductive ParseResult (σ : Type) where
  | ok : σ → ParseResult σ
  | exit : Nat → ParseResult σ
deriving DecidableEq, Repr

/-- The `for` loop of `parseArgs`: one or two arguments are consumed per
step; a value-taking option rejects a missing, empty, or `-`-leading
value (`!nextArg || nextArg.startsWith('-')`); in the `default` case an
argument starting with `-` is an unknown-option error and anything else
is skipped. -/
def parseArgsGeneric {σ : Type} (classify : String → ArgKind σ) :
    List String → σ → ParseResult σ
  | [], o => ParseResult.ok o
  | a :: rest, o =>
    match classify a with
    | ArgKind.exitCode c => ParseResult.exit c
    | ArgKind.valueOpt f =>
      match rest with
      | [] => ParseResult.exit 1
      | v :: rest' =>
        if v == "" || strStartsWith v "-" then ParseResult.exit 1
        else parseArgsGeneric classify rest' (f v o)
    | ArgKind.flagOpt f => parseArgsGeneric classify rest (f o)
    | ArgKind.other =>
      if strStartsWith a "-" then ParseResult.exit 1
      else parseArgsGeneric classify rest o

structure LiftOptions where
  input : String
  output : String
  silent : Bool
deriving DecidableEq, Repr

def liftDefaults : LiftOptions := ⟨".", ".", false⟩

/-- The `switch` of the lift CLI's `parseArgs`. -/
def liftClassify (a : String) : ArgKind LiftOptions :=
  if a == "--help" || a == "-h" then ArgKind.exitCode 0
  else if a == "--version" then ArgKind.exitCode 0
  else if a == "--input" || a == "-i" then ArgKind.valueOpt (fun v o => { o with input := v })
  else if a == "--output" || a == "-o" then ArgKind.valueOpt (fun v o => { o with output := v })
  else if a == "--silent" then ArgKind.flagOpt (fun o => { o with silent := true })
  else ArgKind.other

/-- `parseArgs` of the lift CLI. -/
def LiftCli.parseArgs (args : List String) : ParseResult LiftOptions :=
  parseArgsGeneric liftClassify args liftDefaults

structure GuideOptions where
  input : String
  output : String
  silent : Bool
  generateIndex : Bool
  includeGlobs : List String
  excludeGlobs : List String
deriving DecidableEq, Repr

def guideDefaults : GuideOptions := ⟨".", ".", false, false, [], []⟩

/-- The `switch` of the guide CLI's `parseArgs`. -/
def guideClassify (a : String) : ArgKind GuideOptions :=
  if a == "--help" || a == "-h" then ArgKind.exitCode 0
  else if a == "--version" then ArgKind.exitCode 0
  else if a == "--input" || a == "-i" then ArgKind.valueOpt (fun v o => { o with input := v })
  else if a == "--output" || a == "-o" then ArgKind.valueOpt (fun v o => { o with output := v })
  else if a == "--include" then
    ArgKind.valueOpt (fun v o => { o with includeGlobs := o.includeGlobs ++ [v] })
  else if a == "--exclude" then
    ArgKind.valueOpt (fun v o => { o with excludeGlobs := o.excludeGlobs ++ [v] })
  else if a == "--silent" then ArgKind.flagOpt (fun o => { o with silent := true })
  else if a == "--generate-index" then ArgKind.flagOpt (fun o => { o with generateIndex := true })
  else ArgKind.other

/-- `parseArgs` of the guide CLI. -/
def GuideCli.parseArgs (args : List String) : ParseResult GuideOptions :=
  parseArgsGeneric guideClassify args guideDefaults

/-- The value-taking options of the guide CLI (those of the lift CLI are
the first four). -/
def guideValueOpts : List String :=
  ["--input", "-i", "--output", "-o", "--include", "--exclude"]

def liftValueOpts : List String :=
  ["--input", "-i", "--output", "-o"]

/-- The loop body of `scanDirectory` over one directory entry (named here
so the fold in `scanModel` can be reasoned about; an already-raised error
propagates unchanged, as a thrown exception leaves the `for` loop). -/
def scanStep (isMd : String → Bool) (osErr : String) (fuel : Nat) (full rel : String)
    (acc : Except String (List String)) (e : FSTree) : Except String (List String) :=
  match acc with
  | Except.error m => Except.error m
  | Except.ok fs =>
    match e with
    | FSTree.file name =>
      if isMd name && !shouldExclude name (childRel rel name) then
        Except.ok (fs ++ [full ++ "/" ++ name])
      else Except.ok fs
    | FSTree.dir name readable sub =>
      if shouldExclude name (childRel rel name) then Except.ok fs
      else
        match scanModel isMd osErr fuel (FSTree.dir name readable sub)
            (full ++ "/" ++ name) (childRel rel name) with
        | Except.ok subFiles => Except.ok (fs ++ subFiles)
        | Except.error m => Except.error m

/-!
## Helper lemmas
-/

theorem isPrefixOfB_iff (p : List Char) : ∀ l, isPrefixOfB p l = true ↔ p <+: l := by
  induction p with
  | nil => intro l; simp [isPrefixOfB]
  | cons a as ih =>
    intro l
    cases l with
    | nil => simp [isPrefixOfB]
    | cons b bs => simp [isPrefixOfB, List.cons_prefix_cons, ih]

theorem listIncludes_iff (pat : List Char) : ∀ l, listIncludes pat l = true ↔ pat <:+: l := by
  intro l
  induction l with
  | nil => simp [listIncludes, List.isEmpty_iff]
  | cons c rest ih => simp [listIncludes, isPrefixOfB_iff, ih, List.infix_cons_iff]

theorem strIncludes_iff (s pat : String) : strIncludes s pat = true ↔ pat.data <:+: s.data :=
  listIncludes_iff pat.data s.data

theorem strEndsWith_iff (s suf : String) : strEndsWith s suf = true ↔ suf.data <:+ s.data := by
  unfold strEndsWith
  rw [isPrefixOfB_iff]
  exact List.reverse_prefix

theorem replaceFM_of_not_has :
    ∀ (l : List Char) (b : Bool), hasFMAux b l = false → replaceFMAux b l = l := by
  intro l
  induction l with
  | nil => intro b _; cases b <;> rfl
  | cons c rest ih =>
    intro b h
    cases b with
    | false =>
      simp only [hasFMAux] at h
      simp only [replaceFMAux, ih _ h]
    | true =>
      simp only [hasFMAux, Bool.or_eq_false_iff] at h
      obtain ⟨h1, h2⟩ := h
      cases hm : matchFM (c :: rest) with
      | some r => rw [hm] at h1; simp at h1
      | none => simp only [replaceFMAux, hm, ih _ h2]

theorem strip_of_not_has (s : String) (h : hasFMMatch s = false) :
    stripFrontmatter s = s := by
  unfold hasFMMatch at h
  unfold stripFrontmatter
  rw [replaceFM_of_not_has _ _ h]

/-!
## C1 — IMPORTANT classification substrings
-/

/-- C1 counterexample: the claim says every classifier marks a path
containing `guide` as IMPORTANT, but `MarkdownProcessor.isImportantDocument`
(whose pattern list has `catalog`/`catalogs` in place of
`guide`/`guides`) rejects `guide.md`, a path that is not INDEX-classified
and whose lowercase form contains `guide`. -/
theorem claim1_counterexample :
    MarkdownProcessor.isImportantDocument "guide.md" = false ∧
    MarkdownProcessor.isIndexDocument "guide.md" = false ∧
    strIncludes (jsToLower "guide.md") "guide" = true ∧
    LiftProcessor.isImportantDocument "guide.md" = true := by decide

/-- C1 amended: `LiftProcessor.isImportantDocument` returns true exactly
when the lowercased path contains one of the substrings of the
specification's list; `MarkdownProcessor.isImportantDocument` does the
same for the list with `catalog`, `catalogs` in place of `guide`,
`guides`. -/
theorem claim1_amended (p : String) :
    (LiftProcessor.isImportantDocument p = true ↔
      ∃ pat ∈ liftImportantPatterns, pat.data <:+: (jsToLower p).data) ∧
    (MarkdownProcessor.isImportantDocument p = true ↔
      ∃ pat ∈ markdownImportantPatterns, pat.data <:+: (jsToLower p).data) := by
  constructor <;>
    simp [LiftProcessor.isImportantDocument, MarkdownProcessor.isImportantDocument,
      List.any_eq_true, strIncludes_iff]

/-!
## C2 — front matter is removed only at the very beginning
-/

/-- C2 counterexample: on a text that does not begin with a front-matter
block, `stripFrontmatter` still removes a `---`-delimited block that
starts later (the regex is multiline, so `^` anchors at every line
start), deleting text occurring after the first line. -/
theorem claim2_counterexample :
    strStartsWith "hello\n---\na\n---\n" "---" = false ∧
    stripFrontmatter "hello\n---\na\n---\n" = "hello\n" ∧
    stripFrontmatter "hello\n---\na\n---\n" ≠ "hello\n---\na\n---\n" := by decide

/-- C2 amended: `stripFrontmatter` removes the first well-formed
`---`-block whose opening delimiter starts a line (not necessarily the
first line); when no line of the text opens a well-formed block, the text
is returned unchanged. -/
theorem claim2_amended (t : String) (h : hasFMMatch t = false) :
    stripFrontmatter t = t :=
  strip_of_not_has t h

theorem claim2_amended_witness :
    hasFMMatch "# Content\nTest content" = false ∧
    stripFrontmatter "# Content\nTest content" = "# Content\nTest content" :=
  ⟨by decide, claim2_amended "# Content\nTest content" (by decide)⟩

/-!
## C3 — idempotence of stripFrontmatter
-/

/-- C3 counterexample: two adjacent front-matter blocks; the first
application removes only the first block, the second application removes
the next one, so applying the stripper twice differs from applying it
once. -/
theorem claim3_counterexample :
    stripFrontmatter "---\na\n---\n---\nb\n---\n" = "---\nb\n---\n" ∧
    stripFrontmatter (stripFrontmatter "---\na\n---\n---\nb\n---\n") = "" ∧
    stripFrontmatter (stripFrontmatter "---\na\n---\n---\nb\n---\n") ≠
      stripFrontmatter "---\na\n---\n---\nb\n---\n" := by decide

/-- C3 amended: `stripFrontmatter` is idempotent on every text whose
once-stripped result no longer contains a line-anchored front-matter
block; in general a second application can remove a further block. -/
theorem claim3_amended (t : String) (h : hasFMMatch (stripFrontmatter t) = false) :
    stripFrontmatter (stripFrontmatter t) = stripFrontmatter t :=
  strip_of_not_has _ h

theorem claim3_amended_witness :
    hasFMMatch (stripFrontmatter "---\ntitle: x\n---\nBody") = false ∧
    stripFrontmatter (stripFrontmatter "---\ntitle: x\n---\nBody") =
      stripFrontmatter "---\ntitle: x\n---\nBody" :=
  ⟨by decide, claim3_amended "---\ntitle: x\n---\nBody" (by decide)⟩

/-!
## C6 — document-file predicate
-/

/-- C6 counterexample: the claim says the predicate accepts `.html`, but
both cited implementations (`DirectoryScanner.defaultIsMarkdownFile` and
`LiftProcessor.isMarkdownFile`) reject `page.html`. -/
theorem claim6_counterexample :
    DirectoryScanner.defaultIsMarkdownFile "page.html" = false ∧
    LiftProcessor.isMarkdownFile "page.html" = false ∧
    strEndsWith (jsToLower "page.html") ".html" = true := by decide

/-- C6 amended: both implementations agree, and they return true exactly
when the lowercased name ends with `.md` or `.mdx` (`.html` is not
accepted). -/
theorem claim6_amended (n : String) :
    DirectoryScanner.defaultIsMarkdownFile n = LiftProcessor.isMarkdownFile n ∧
    (DirectoryScanner.defaultIsMarkdownFile n = true ↔
      (".md".data <:+ (jsToLower n).data ∨ ".mdx".data <:+ (jsToLower n).data)) := by
  refine ⟨rfl, ?_⟩
  simp [DirectoryScanner.defaultIsMarkdownFile, strEndsWith_iff]

/-!
## C4 / C5 — orderDocuments
-/

theorem bucketize_perm (isIdx isImp : String → Bool) :
    ∀ ds : List Document,
      ((bucketize isIdx isImp ds).1 ++ (bucketize isIdx isImp ds).2.1 ++
        (bucketize isIdx isImp ds).2.2).Perm ds := by
  intro ds
  induction ds with
  | nil => simp [bucketize]
  | cons d ds ih =>
    simp only [bucketize]
    split_ifs with h1 h2
    · simpa using ih.cons d
    · have e : (bucketize isIdx isImp ds).1 ++
          (d :: (bucketize isIdx isImp ds).2.1) ++ (bucketize isIdx isImp ds).2.2 =
          (bucketize isIdx isImp ds).1 ++
            d :: ((bucketize isIdx isImp ds).2.1 ++ (bucketize isIdx isImp ds).2.2) := by
        simp [List.append_assoc]
      rw [e]
      have ih' := (List.append_assoc _ _ _) ▸ ih
      exact List.perm_middle.trans (ih'.cons d)
    · exact List.perm_middle.trans (ih.cons d)

theorem bucketize_classifies (isIdx isImp : String → Bool) :
    ∀ ds : List Document,
      (∀ d ∈ (bucketize isIdx isImp ds).1, isIdx d.relativePath = true) ∧
      (∀ d ∈ (bucketize isIdx isImp ds).2.1,
        isIdx d.relativePath = false ∧ isImp d.relativePath = true) ∧
      (∀ d ∈ (bucketize isIdx isImp ds).2.2,
        isIdx d.relativePath = false ∧ isImp d.relativePath = false) := by
  intro ds
  induction ds with
  | nil => simp [bucketize]
  | cons d ds ih =>
    obtain ⟨h1, h2, h3⟩ := ih
    simp only [bucketize]
    split_ifs with hi hm
    · exact ⟨fun e he => by
        rcases List.mem_cons.mp he with rfl | he
        · exact hi
        · exact h1 e he, h2, h3⟩
    · refine ⟨h1, fun e he => ?_, h3⟩
      rcases List.mem_cons.mp he with rfl | he
      · exact ⟨Bool.not_eq_true _ ▸ Bool.of_not_eq_true hi, hm⟩
      · exact h2 e he
    · refine ⟨h1, h2, fun e he => ?_⟩
      rcases List.mem_cons.mp he with rfl | he
      · exact ⟨Bool.of_not_eq_true hi, Bool.of_not_eq_true hm⟩
      · exact h3 e he

/-- C4: `orderDocuments` is a partition.  Its `all` field is exactly
index ++ important ++ other, that concatenation is a permutation of the
input (so every input document occurs in `all` with its input
multiplicity, i.e. exactly once for distinct documents), and the three
buckets are characterized by mutually exclusive classifier outcomes, so
no document occurrence lands in two buckets. -/
theorem claim4_partition (isIdx isImp : String → Bool) (prio : String → Nat)
    (le : String → String → Bool) (ds : List Document) :
    (orderDocuments isIdx isImp prio le ds).all =
      (orderDocuments isIdx isImp prio le ds).index ++
      (orderDocuments isIdx isImp prio le ds).important ++
      (orderDocuments isIdx isImp prio le ds).other ∧
    ((orderDocuments isIdx isImp prio le ds).all).Perm ds ∧
    (∀ d : Document, ((orderDocuments isIdx isImp prio le ds).all).count d = ds.count d) ∧
    (∀ d ∈ (orderDocuments isIdx isImp prio le ds).index, isIdx d.relativePath = true) ∧
    (∀ d ∈ (orderDocuments isIdx isImp prio le ds).important,
      isIdx d.relativePath = false ∧ isImp d.relativePath = true) ∧
    (∀ d ∈ (orderDocuments isIdx isImp prio le ds).other,
      isIdx d.relativePath = false ∧ isImp d.relativePath = false) := by
  obtain ⟨hc1, hc2, hc3⟩ := bucketize_classifies isIdx isImp ds
  have hperm : ((orderDocuments isIdx isImp prio le ds).all).Perm ds := by
    refine List.Perm.trans ?_ (bucketize_perm isIdx isImp ds)
    exact List.Perm.append
      (List.Perm.append (List.perm_insertionSort _ _) (List.perm_insertionSort _ _))
      (List.perm_insertionSort _ _)
  refine ⟨rfl, hperm, fun d => hperm.count_eq d, ?_, ?_, ?_⟩
  · intro d hd
    exact hc1 d ((List.mem_insertionSort _).mp hd)
  · intro d hd
    exact hc2 d ((List.mem_insertionSort _).mp hd)
  · intro d hd
    exact hc3 d ((List.mem_insertionSort _).mp hd)

/-- C5 counterexample: `LiftProcessor.getIndexPriority` gives priority 4
(not 1) to `a/index.html` — the `.html` variants appear only in the
`MarkdownProcessor` copy — so the index bucket produced with the
LiftProcessor classifiers keeps `readme.md` (priority 2 per the claim's
table) ahead of `a/index.html` (priority 1 per the claim's table). -/
theorem claim5_counterexample :
    (orderDocuments LiftProcessor.isIndexDocument LiftProcessor.isImportantDocument
      LiftProcessor.getIndexPriority (fun _ _ => true)
      [⟨"readme.md", ""⟩, ⟨"a/index.html", ""⟩]).index =
      [⟨"readme.md", ""⟩, ⟨"a/index.html", ""⟩] ∧
    LiftProcessor.isIndexDocument "a/index.html" = true ∧
    priorityRef [".md", ".mdx", ".html"] "a/index.html" = 1 ∧
    priorityRef [".md", ".mdx", ".html"] "readme.md" = 2 ∧
    LiftProcessor.getIndexPriority "a/index.html" = 4 := by decide

/-- C5 amended: the index bucket is sorted ascending by the priority
function the respective processor uses, so lower-priority-number entries
precede higher ones; `MarkdownProcessor.getIndexPriority` realizes the
claim's table for the extension variants `.md`/`.mdx`/`.html`, while
`LiftProcessor.getIndexPriority` realizes it for `.md`/`.mdx` only. -/
theorem claim5_amended :
    (∀ (isIdx isImp : String → Bool) (prio : String → Nat) (le : String → String → Bool)
      (ds : List Document),
      ((orderDocuments isIdx isImp prio le ds).index).Pairwise
        (fun a b => prio a.relativePath ≤ prio b.relativePath)) ∧
    (∀ p, MarkdownProcessor.getIndexPriority p = priorityRef [".md", ".mdx", ".html"] p) ∧
    (∀ p, LiftProcessor.getIndexPriority p = priorityRef [".md", ".mdx"] p) := by
  refine ⟨?_, ?_, ?_⟩
  · intro isIdx isImp prio le ds
    haveI : IsTotal Document (fun a b => prio a.relativePath ≤ prio b.relativePath) :=
      ⟨fun a b => Nat.le_total _ _⟩
    haveI : IsTrans Document (fun a b => prio a.relativePath ≤ prio b.relativePath) :=
      ⟨fun _ _ _ => Nat.le_trans⟩
    exact List.sorted_insertionSort _ _
  · intro p
    simp only [MarkdownProcessor.getIndexPriority, priorityRef,
      List.any_cons, List.any_nil, Bool.or_false, Bool.or_assoc]
    rfl
  · intro p
    simp only [LiftProcessor.getIndexPriority, priorityRef,
      List.any_cons, List.any_nil, Bool.or_false, Bool.or_assoc]
    rfl

/-!
## C10 — positional CLI arguments are ignored
-/

theorem liftClassify_of_not_dash (p : String) (hp : strStartsWith p "-" = false) :
    liftClassify p = ArgKind.other := by
  unfold liftClassify
  split_ifs with h1 h2 h3 h4 h5
  · simp only [Bool.or_eq_true, beq_iff_eq] at h1
    rcases h1 with rfl | rfl <;> exact absurd hp (by decide)
  · simp only [beq_iff_eq] at h2
    subst h2; exact absurd hp (by decide)
  · simp only [Bool.or_eq_true, beq_iff_eq] at h3
    rcases h3 with rfl | rfl <;> exact absurd hp (by decide)
  · simp only [Bool.or_eq_true, beq_iff_eq] at h4
    rcases h4 with rfl | rfl <;> exact absurd hp (by decide)
  · simp only [beq_iff_eq] at h5
    subst h5; exact absurd hp (by decide)
  · rfl

theorem guideClassify_of_not_dash (p : String) (hp : strStartsWith p "-" = false) :
    guideClassify p = ArgKind.other := by
  unfold guideClassify
  split_ifs with h1 h2 h3 h4 h5 h6 h7 h8
  · simp only [Bool.or_eq_true, beq_iff_eq] at h1
    rcases h1 with rfl | rfl <;> exact absurd hp (by decide)
  · simp only [beq_iff_eq] at h2
    subst h2; exact absurd hp (by decide)
  · simp only [Bool.or_eq_true, beq_iff_eq] at h3
    rcases h3 with rfl | rfl <;> exact absurd hp (by decide)
  · simp only [Bool.or_eq_true, beq_iff_eq] at h4
    rcases h4 with rfl | rfl <;> exact absurd hp (by decide)
  · simp only [beq_iff_eq] at h5
    subst h5; exact absurd hp (by decide)
  · simp only [beq_iff_eq] at h6
    subst h6; exact absurd hp (by decide)
  · simp only [beq_iff_eq] at h7
    subst h7; exact absurd hp (by decide)
  · simp only [beq_iff_eq] at h8
    subst h8; exact absurd hp (by decide)
  · rfl

theorem liftClassify_valueOpt_mem (s : String) (f : String → LiftOptions → LiftOptions)
    (h : liftClassify s = ArgKind.valueOpt f) : s ∈ liftValueOpts := by
  unfold liftClassify at h
  split_ifs at h with h1 h2 h3 h4 h5 <;> (simp_all [liftValueOpts]; try tauto)

theorem guideClassify_valueOpt_mem (s : String) (f : String → GuideOptions → GuideOptions)
    (h : guideClassify s = ArgKind.valueOpt f) : s ∈ guideValueOpts := by
  unfold guideClassify at h
  split_ifs at h with h1 h2 h3 h4 h5 h6 h7 h8 <;> (simp_all [guideValueOpts]; try tauto)

theorem getLast?_tail_imp {α : Type} (a : α) (l : List α) (P : α → Prop)
    (h : ∀ s, (a :: l).getLast? = some s → P s) : ∀ s, l.getLast? = some s → P s := by
  intro s hs
  apply h
  cases l with
  | nil => simp at hs
  | cons b rest => rw [List.getLast?_cons_cons]; exact hs

/-- Inserting an argument `p` that does not begin with `-` and whose
immediate predecessor (the last element of `l1`, if any) is not a
value-taking option leaves `parseArgs` unchanged. -/
theorem parseArgsGeneric_skip {σ : Type} (classify : String → ArgKind σ) (p : String)
    (hp : classify p = ArgKind.other) (hpd : strStartsWith p "-" = false) :
    ∀ (l1 l2 : List String) (o : σ),
      (∀ s, l1.getLast? = some s → ∀ f, classify s ≠ ArgKind.valueOpt f) →
      parseArgsGeneric classify (l1 ++ p :: l2) o = parseArgsGeneric classify (l1 ++ l2) o := by
  suffices H : ∀ (n : Nat) (l1 : List String), l1.length ≤ n →
      ∀ (l2 : List String) (o : σ),
        (∀ s, l1.getLast? = some s → ∀ f, classify s ≠ ArgKind.valueOpt f) →
        parseArgsGeneric classify (l1 ++ p :: l2) o = parseArgsGeneric classify (l1 ++ l2) o by
    intro l1 l2 o hlast
    exact H l1.length l1 le_rfl l2 o hlast
  intro n
  induction n with
  | zero =>
    intro l1 hlen l2 o _
    have : l1 = [] := List.eq_nil_of_length_eq_zero (Nat.le_zero.mp hlen)
    subst this
    simp only [List.nil_append, parseArgsGeneric, hp, if_neg]
    rw [if_neg (by simp [hpd])]
  | succ n ih =>
    intro l1 hlen l2 o hlast
    match l1 with
    | [] =>
      simp only [List.nil_append, parseArgsGeneric, hp]
      rw [if_neg (by simp [hpd])]
    | a :: l1' =>
      have hlen' : l1'.length ≤ n := by
        simpa [Nat.succ_le_succ_iff] using hlen
      cases hc : classify a with
      | exitCode c => simp only [List.cons_append, parseArgsGeneric, hc]
      | flagOpt f =>
        simp only [List.cons_append, parseArgsGeneric, hc]
        exact ih l1' hlen' l2 (f o) (getLast?_tail_imp a l1' _ hlast)
      | other =>
        simp only [List.cons_append, parseArgsGeneric, hc]
        by_cases hd : strStartsWith a "-" = true
        · rw [if_pos (by simp [hd]), if_pos (by simp [hd])]
        · rw [if_neg (by simp [hd]), if_neg (by simp [hd])]
          exact ih l1' hlen' l2 o (getLast?_tail_imp a l1' _ hlast)
      | valueOpt f =>
        match l1' with
        | [] => exact absurd hc (hlast a rfl f)
        | v :: l1'' =>
          simp only [List.cons_append, parseArgsGeneric, hc]
          by_cases hv : (v == "" || strStartsWith v "-") = true
          · rw [if_pos hv, if_pos hv]
          · rw [if_neg hv, if_neg hv]
            have hlen'' : l1''.length ≤ n := by
              simp only [List.length_cons] at hlen'
              omega
            exact ih l1'' hlen'' l2 (f v o)
              (getLast?_tail_imp v l1'' _ (getLast?_tail_imp a (v :: l1'') _ hlast))

/-- C10: a command-line argument `p` that does not begin with `-` and is
not in value position (its immediate predecessor is not a value-taking
option, so it is not consumed as an option value) is silently ignored by
both CLIs' `parseArgs`: no error exit, no option change — the parse
result is exactly that of the argument list without `p`. -/
theorem claim10_positional_ignored (l1 l2 : List String) (p : String)
    (hpd : strStartsWith p "-" = false)
    (hlast : ∀ s, l1.getLast? = some s → s ∉ guideValueOpts) :
    LiftCli.parseArgs (l1 ++ p :: l2) = LiftCli.parseArgs (l1 ++ l2) ∧
    GuideCli.parseArgs (l1 ++ p :: l2) = GuideCli.parseArgs (l1 ++ l2) := by
  constructor
  · exact parseArgsGeneric_skip liftClassify p (liftClassify_of_not_dash p hpd) hpd
      l1 l2 liftDefaults
      (fun s hs f hf => by
        have hmem := liftClassify_valueOpt_mem s f hf
        have : s ∈ guideValueOpts := by
          simp only [liftValueOpts, List.mem_cons, List.not_mem_nil, or_false] at hmem
          simp only [guideValueOpts, List.mem_cons]
          tauto
        exact hlast s hs this)
  · exact parseArgsGeneric_skip guideClassify p (guideClassify_of_not_dash p hpd) hpd
      l1 l2 guideDefaults
      (fun s hs f hf => hlast s hs (guideClassify_valueOpt_mem s f hf))

theorem claim10_positional_ignored_witness :
    strStartsWith "stray" "-" = false ∧
    LiftCli.parseArgs (["--input", "docs"] ++ "stray" :: ["--silent"]) =
      LiftCli.parseArgs (["--input", "docs"] ++ ["--silent"]) ∧
    GuideCli.parseArgs (["--input", "docs"] ++ "stray" :: ["--silent"]) =
      GuideCli.parseArgs (["--input", "docs"] ++ ["--silent"]) := by
  have h := claim10_positional_ignored ["--input", "docs"] ["--silent"] "stray"
    (by decide)
    (fun s hs => by
      rw [show (["--input", "docs"] : List String).getLast? = some "docs" from rfl] at hs
      injection hs with h
      subst h
      decide)
  exact ⟨by decide, h.1, h.2⟩

/-!
## C7 — an unreadable subdirectory aborts the scan
-/

theorem scanModel_dir_true (isMd : String → Bool) (osErr : String) (fuel : Nat)
    (n full rel : String) (children : List FSTree) :
    scanModel isMd osErr (fuel + 1) (FSTree.dir n true children) full rel =
      match children.foldl (scanStep isMd osErr fuel full rel) (Except.ok []) with
      | Except.ok fs => Except.ok fs
      | Except.error m =>
        Except.error ("Failed to scan directory " ++ full ++ ": " ++ m) := rfl

theorem foldl_scanStep_error (isMd : String → Bool) (osErr : String) (fuel : Nat)
    (full rel m : String) :
    ∀ l : List FSTree,
      l.foldl (scanStep isMd osErr fuel full rel) (Except.error m) = Except.error m := by
  intro l
  induction l with
  | nil => rfl
  | cons e rest ih =>
    rw [List.foldl_cons,
      show scanStep isMd osErr fuel full rel (Except.error m) e = Except.error m from rfl, ih]

theorem foldl_scanStep_bad (isMd : String → Bool) (osErr : String) (fuel : Nat)
    (full rel bn : String) (bc : List FSTree)
    (hex : shouldExclude bn (childRel rel bn) = false) :
    ∀ (pre post : List FSTree) (acc : Except String (List String)),
      ∃ m, ((pre ++ FSTree.dir bn false bc :: post).foldl
        (scanStep isMd osErr fuel full rel) acc) = Except.error m := by
  intro pre
  induction pre with
  | nil =>
    intro post acc
    cases acc with
    | error m =>
      exact ⟨m, by rw [List.nil_append, foldl_scanStep_error]⟩
    | ok fs =>
      have hstep : ∃ m0, scanStep isMd osErr fuel full rel (Except.ok fs)
          (FSTree.dir bn false bc) = Except.error m0 := by
        cases fuel with
        | zero => exact ⟨"scan model out of fuel", by simp [scanStep, hex, scanModel]⟩
        | succ f =>
          exact ⟨"Failed to scan directory " ++ (full ++ "/" ++ bn) ++ ": " ++ osErr,
            by simp [scanStep, hex, scanModel]⟩
      obtain ⟨m0, hm0⟩ := hstep
      exact ⟨m0, by rw [List.nil_append, List.foldl_cons, hm0, foldl_scanStep_error]⟩
  | cons e pre ih =>
    intro post acc
    rw [List.cons_append, List.foldl_cons]
    exact ih post (scanStep isMd osErr fuel full rel acc e)

/-- C7 counterexample: a scan of a root whose children are `a.md`, an
unreadable subdirectory `bad`, and `b.md` does not skip `bad` and return
the other files; the whole scan throws the wrapped error. -/
theorem claim7_counterexample :
    scanModel DirectoryScanner.defaultIsMarkdownFile "EACCES" 2
      (FSTree.dir "root" true
        [FSTree.file "a.md", FSTree.dir "bad" false [], FSTree.file "b.md"]) "root" "" =
      Except.error "Failed to scan directory root: Failed to scan directory root/bad: EACCES" ∧
    ∀ fs : List String,
      scanModel DirectoryScanner.defaultIsMarkdownFile "EACCES" 2
        (FSTree.dir "root" true
          [FSTree.file "a.md", FSTree.dir "bad" false [], FSTree.file "b.md"]) "root" "" ≠
        Except.ok fs := by
  constructor
  · rfl
  · intro fs h
    rw [show scanModel DirectoryScanner.defaultIsMarkdownFile "EACCES" 2
      (FSTree.dir "root" true
        [FSTree.file "a.md", FSTree.dir "bad" false [], FSTree.file "b.md"]) "root" "" =
      Except.error
        "Failed to scan directory root: Failed to scan directory root/bad: EACCES" from rfl] at h
    simp at h

/-- C7 amended: an unreadable (and not excluded) subdirectory anywhere in
a directory's entry list makes the whole `scanDirectory` call fail: the
error is wrapped as `Failed to scan directory <dir>: <message>` per level
and rethrown, and no file list is returned — files found elsewhere are
discarded. -/
theorem claim7_amended (isMd : String → Bool) (osErr : String) (fuel : Nat)
    (n full rel bn : String) (bc pre post : List FSTree)
    (hex : shouldExclude bn (childRel rel bn) = false) :
    ∃ m, scanModel isMd osErr (fuel + 1)
        (FSTree.dir n true (pre ++ FSTree.dir bn false bc :: post)) full rel =
      Except.error ("Failed to scan directory " ++ full ++ ": " ++ m) := by
  obtain ⟨m, hm⟩ :=
    foldl_scanStep_bad isMd osErr fuel full rel bn bc hex pre post (Except.ok [])
  exact ⟨m, by rw [scanModel_dir_true, hm]⟩

theorem claim7_amended_witness :
    shouldExclude "bad" (childRel "" "bad") = false ∧
    ∃ m, scanModel DirectoryScanner.defaultIsMarkdownFile "EACCES" 2
        (FSTree.dir "root" true
          ([FSTree.file "a.md"] ++ FSTree.dir "bad" false [] :: [FSTree.file "b.md"]))
        "root" "" =
      Except.error ("Failed to scan directory root: " ++ m) :=
  ⟨by decide, claim7_amended DirectoryScanner.defaultIsMarkdownFile "EACCES" 1
    "root" "root" "" "bad" [] [FSTree.file "a.md"] [FSTree.file "b.md"] (by decide)⟩

/-!
## C8 — zero documents
-/

/-- C8 counterexample: one file is found but its read fails; the document
list is empty, yet `process` still renders and writes both outputs
(header-only contents) instead of exiting without writing. -/
theorem claim8_counterexample :
    LiftProcessor.processFiles (fun s => s) (fun _ => none) ["a.md"] = [] ∧
    LiftProcessor.process (fun s => s) (fun _ _ => true) "proj" ["a.md"] (fun _ => none) =
      some ("# proj\n\n> Documentation for proj\n\n",
        "# proj\n\n> Documentation for proj\n\n") := by
  exact ⟨rfl, rfl⟩

/-- C8 amended: when the scan finds zero FILES, `process` returns before
writing anything (and the run exits 0); but whenever at least one file is
found — even if every read fails and zero documents result — both output
files are written. -/
theorem claim8_amended (rel : String → String) (le : String → String → Bool)
    (name : String) (files : List String) (readF : String → Option String) :
    LiftProcessor.process rel le name [] readF = none ∧
    (files ≠ [] → (LiftProcessor.process rel le name files readF).isSome = true) := by
  constructor
  · rfl
  · intro h
    unfold LiftProcessor.process
    have hlen : (files.length == 0) = false := by
      simp [List.length_eq_zero, h]
    rw [hlen]
    simp

theorem claim8_amended_witness :
    (["a.md"] : List String) ≠ [] ∧
    (LiftProcessor.process (fun s => s) (fun _ _ => true) "proj" ["a.md"]
      (fun _ => none)).isSome = true :=
  ⟨by decide,
    (claim8_amended (fun s => s) (fun _ _ => true) "proj" ["a.md"] (fun _ => none)).2
      (by decide)⟩

/-!
## C9 — llms.txt link-list round trip
-/

theorem str_data_append (s t : String) : (s ++ t).data = s.data ++ t.data := rfl

theorem noNewline_iff (s : String) : noNewline s = true ↔ '\n' ∉ s.data := by
  simp [noNewline]

theorem splitLines_ne_nil : ∀ l : List Char, splitLines l ≠ [] := by
  intro l
  cases l with
  | nil => simp [splitLines]
  | cons c rest =>
    simp only [splitLines]
    cases hsl : splitLines rest with
    | nil => simp
    | cons a as => by_cases hc : c = '\n' <;> simp [hc]

theorem splitLines_append (xs : List Char) (ys : List Char) (h : '\n' ∉ xs) :
    splitLines (xs ++ '\n' :: ys) = xs :: splitLines ys := by
  induction xs with
  | nil =>
    simp only [List.nil_append, splitLines]
    cases hsl : splitLines ys with
    | nil => exact absurd hsl (splitLines_ne_nil ys)
    | cons l ls => simp
  | cons c xs ih =>
    have hc : c ≠ '\n' := fun hcc => h (hcc ▸ List.mem_cons_self c xs)
    have h' : '\n' ∉ xs := fun hx => h (List.mem_cons_of_mem c hx)
    rw [List.cons_append]
    rw [show splitLines (c :: (xs ++ '\n' :: ys)) =
        (match splitLines (xs ++ '\n' :: ys) with
         | [] => [[c]]
         | l :: ls => if c = '\n' then [] :: l :: ls else (c :: l) :: ls) from rfl]
    rw [ih h']
    simp [hc]

theorem extract_skip_line (xs rest : List Char) (hnl : '\n' ∉ xs)
    (hp : parseLink xs = none) :
    (splitLines (xs ++ '\n' :: rest)).filterMap parseLink =
      (splitLines rest).filterMap parseLink := by
  rw [splitLines_append xs rest hnl]
  simp [List.filterMap_cons, hp]

theorem extract_skip_empty (rest : List Char) :
    (splitLines ('\n' :: rest)).filterMap parseLink =
      (splitLines rest).filterMap parseLink := by
  have h := splitLines_append [] rest (by simp)
  simp only [List.nil_append] at h
  rw [h]
  simp [List.filterMap_cons, parseLink]

theorem extract_keep_line (xs rest : List Char) (q : String) (hnl : '\n' ∉ xs)
    (hp : parseLink xs = some q) :
    (splitLines (xs ++ '\n' :: rest)).filterMap parseLink =
      q :: (splitLines rest).filterMap parseLink := by
  rw [splitLines_append xs rest hnl]
  simp [List.filterMap_cons, hp]

theorem parseLink_mk (p : List Char) :
    parseLink ('-' :: ' ' :: '[' :: (p ++ (']' :: '(' :: (p ++ [')'])))) =
      some ⟨p⟩ := by
  have hre : (p ++ (']' :: '(' :: (p ++ [')']))).reverse =
      ')' :: (p ++ (']' :: '(' :: p)).reverse := by
    rw [show p ++ (']' :: '(' :: (p ++ [')'])) = (p ++ (']' :: '(' :: p)) ++ [')'] by
      simp]
    simp
  simp only [parseLink, hre, List.reverse_reverse]
  have hlen : ((p ++ (']' :: '(' :: p)).length - 2) / 2 = p.length := by
    simp only [List.length_append, List.length_cons]
    omega
  rw [hlen, List.take_left]
  simp

theorem extract_links_block (ds : List Document) (rest : List Char)
    (h : ∀ d ∈ ds, noNewline d.relativePath = true) :
    (splitLines ((linksOf ds).data ++ rest)).filterMap parseLink =
      ds.map (fun d => d.relativePath) ++ (splitLines rest).filterMap parseLink := by
  induction ds with
  | nil => simp [linksOf]
  | cons d ds ih =>
    have hd : '\n' ∉ d.relativePath.data :=
      (noNewline_iff _).mp (h d (List.mem_cons_self d ds))
    have hds : ∀ e ∈ ds, noNewline e.relativePath = true :=
      fun e he => h e (List.mem_cons_of_mem d he)
    have hshape : (linksOf (d :: ds)).data ++ rest =
        ('-' :: ' ' :: '[' ::
          (d.relativePath.data ++ (']' :: '(' :: (d.relativePath.data ++ [')'])))) ++
          '\n' :: ((linksOf ds).data ++ rest) := by
      show (linkLine d.relativePath ++ linksOf ds).data ++ rest = _
      simp only [linkLine, str_data_append, List.append_assoc, List.cons_append,
        List.singleton_append]
      rfl
    have hnl : '\n' ∉ '-' :: ' ' :: '[' ::
        (d.relativePath.data ++ (']' :: '(' :: (d.relativePath.data ++ [')']))) := by
      simp [hd]
    rw [hshape, extract_keep_line _ _ ⟨d.relativePath.data⟩ hnl (parseLink_mk _), ih hds]
    simp

theorem extract_core_if (core : List Document) (rest : List Char)
    (h : ∀ d ∈ core, noNewline d.relativePath = true) :
    (splitLines ((if core.length > 0 then
        "## Core Documentation\n" ++ linksOf core ++ "\n" else "").data ++ rest)).filterMap
        parseLink =
      core.map (fun d => d.relativePath) ++ (splitLines rest).filterMap parseLink := by
  cases core with
  | nil => simp
  | cons d ds =>
    rw [if_pos (by simp)]
    have hshape : ("## Core Documentation\n" ++ linksOf (d :: ds) ++ "\n").data ++ rest =
        "## Core Documentation".data ++ '\n' :: ((linksOf (d :: ds)).data ++ '\n' :: rest) := by
      simp only [str_data_append, List.append_assoc]
      rfl
    rw [hshape, extract_skip_line _ _ (by decide) (by rfl), extract_links_block _ _ h,
      extract_skip_empty]

theorem extract_opt_if (other : List Document)
    (h : ∀ d ∈ other, noNewline d.relativePath = true) :
    (splitLines ((if other.length > 0 then
        "## Optional\n" ++ linksOf other ++ "\n" else "").data)).filterMap parseLink =
      other.map (fun d => d.relativePath) := by
  cases other with
  | nil => rfl
  | cons d ds =>
    rw [if_pos (by simp)]
    have hshape : ("## Optional\n" ++ linksOf (d :: ds) ++ "\n").data =
        "## Optional".data ++ '\n' :: ((linksOf (d :: ds)).data ++ '\n' :: []) := by
      simp only [str_data_append, List.append_assoc]
      rfl
    rw [hshape, extract_skip_line _ _ (by decide) (by rfl), extract_links_block _ _ h,
      extract_skip_empty]
    rw [show (splitLines ([] : List Char)).filterMap parseLink = [] from rfl, List.append_nil]

theorem header_shape (title C O : String) :
    (("# " ++ title ++ "\n\n" ++ "> Documentation for " ++ title ++ "\n\n") ++ C ++ O).data =
      ('#' :: ' ' :: title.data) ++ '\n' ::
        ('\n' :: (("> Documentation for ".data ++ title.data) ++ '\n' ::
          ('\n' :: (C.data ++ O.data)))) := by
  simp only [str_data_append, List.append_assoc]
  rfl

/-- C9 counterexample: with a project name containing a newline and a
link-shaped second line, the rendered `llms.txt` contains link lines that
come from the title, so re-parsing does not reproduce the (empty) path
list of the OrderedSet. -/
theorem claim9_counterexample :
    extractLinks (generateLlmsIndex "A\n- [x](x)" ⟨[], [], [], []⟩) = ["x", "x"] ∧
    (((⟨[], [], [], []⟩ : OrderedSet).index ++ (⟨[], [], [], []⟩ : OrderedSet).important).map
        (fun d => d.relativePath) ++
      (⟨[], [], [], []⟩ : OrderedSet).other.map (fun d => d.relativePath)) = [] := by
  exact ⟨rfl, rfl⟩

/-- C9 amended: provided the project name and every relative path contain
no newline character, extracting the `- [path](path)` link lines of
`generateLlmsIndex`'s output, in textual order, reproduces exactly the
relative paths of index ++ important followed by other — nothing added,
dropped, or reordered.  (With embedded newlines the title or a path can
forge or break link lines, as the counterexample shows.) -/
theorem claim9_amended (title : String) (o : OrderedSet)
    (ht : noNewline title = true)
    (hcore : ∀ d ∈ o.index ++ o.important, noNewline d.relativePath = true)
    (hother : ∀ d ∈ o.other, noNewline d.relativePath = true) :
    extractLinks (generateLlmsIndex title o) =
      (o.index ++ o.important).map (fun d => d.relativePath) ++
        o.other.map (fun d => d.relativePath) := by
  have ht' : '\n' ∉ title.data := (noNewline_iff _).mp ht
  simp only [extractLinks, generateLlmsIndex]
  rw [header_shape]
  rw [extract_skip_line _ _ (by simp [ht']) (by rfl)]
  rw [extract_skip_empty]
  rw [extract_skip_line _ _ (by
    intro hmem
    rcases List.mem_append.mp hmem with hm | hm
    · exact absurd hm (by decide)
    · exact ht' hm) (by rfl)]
  rw [extract_skip_empty]
  rw [extract_core_if _ _ hcore]
  rw [extract_opt_if _ hother]

theorem claim9_amended_witness :
    noNewline "proj" = true ∧
    extractLinks (generateLlmsIndex "proj"
        ⟨[⟨"index.md", ""⟩], [⟨"docs/g.md", ""⟩], [⟨"z.md", ""⟩], []⟩) =
      (([⟨"index.md", ""⟩] ++ [⟨"docs/g.md", ""⟩] : List Document).map
        (fun d => d.relativePath) ++
        ([⟨"z.md", ""⟩] : List Document).map (fun d => d.relativePath)) :=
  ⟨by decide,
    claim9_amended "proj" ⟨[⟨"index.md", ""⟩], [⟨"docs/g.md", ""⟩], [⟨"z.md", ""⟩], []⟩
      (by decide) (by decide) (by decide)⟩
